import Mathlib

/-!
# A verification development for the `goexplore` concurrent web crawler

This file gives a shallow embedding of `src/WebCrawler.go` as a small-step
interleaving semantics and proves (or refutes) the specification claims
against it.

The Go program consists of:
* `SafeRegister` — a mutex-guarded string list `v` (the visited register,
  with `Add` appending and `In` scanning) and a mutex-guarded counter `o`
  (`Inc` / `Dec` / `Count`) of in-flight `Crawl` goroutines;
* `Crawl(url, depth, fetcher)` — increments the counter (deferred decrement),
  returns if `depth <= 0`, checks `sreg.In(url)` (producing an
  "already fetched" error when present), otherwise calls `fetcher.Fetch(url)`;
  on any error it sends the error text on the unbuffered channel `ch` and
  returns; on success it appends `url` to the register (`sreg.Add`), sends a
  "found" line on `ch`, and spawns `go Crawl(u, depth-1, fetcher)` for every
  discovered link;
* `main` — spawns the seed task, busy-waits until the counter is nonzero,
  then drains `ch`, breaking out when the counter reads zero;
* `fakeFetcher.Fetch` — a canned map from URL to (body, links), failing with
  a "not found" error for absent URLs.

The embedding models each goroutine as a task progressing through the
atomic regions of `Crawl`'s body (each lock acquisition, the fetch call, and
each channel rendezvous is one step) and `main`'s consumer loop as a small
state machine over its counter reads.  A schedule is a list of choices
(`0` = a consumer step, `i+1` = a micro-step of task `i`), and `run` folds
the step function over a schedule, so every concrete interleaving of the Go
program corresponds to a schedule and can be evaluated.

Ghost instrumentation (fields that record history but never influence a
step): `fetchLog` records every invocation of the fetch capability with the
task's distance from the seed and the success flag, `spawnLog` records every
task creation, `attempts` counts tasks that ran with positive remaining
depth, each task carries its distance `dist` from the seed and the output
index `pidx` of its parent's result line, and each delivered line records
the address, result kind and `pidx` of its emitter.
-/

namespace WebCrawler

/-- The fetch capability: `Fetch(url)` returns a body and discovered links,
or an error message (`err.Error()` in Go). -/
abbrev Fetcher := String → Except String (String × List String)

/-- The three result categories a task can deliver (ghost tag; the channel
itself carries only the rendered string). -/
inductive RKind where
  | found
  | already
  | fetchError
  deriving DecidableEq, Repr

/-- Position of a task inside the body of `Crawl`, between atomic regions:
`spawned` = goroutine created by `go Crawl(...)` but not yet scheduled
(before `sreg.Inc()`); `checking` = about to call `sreg.In(url)`;
`toFetch` = `In` returned false, about to call `fetcher.Fetch(url)`;
`adding` = fetch succeeded, about to call `sreg.Add(url)`;
`sending` = about to send a line on the unbuffered channel `ch`;
`spawning` = after the send, spawning `go Crawl(u, depth-1, _)` for each
remaining link (`myIdx` is the ghost output index of this task's own line);
`finishing` = about to run the deferred `sreg.Dec()` and exit. -/
inductive Phase where
  | spawned
  | checking
  | toFetch
  | adding (body : String) (links : List String)
  | sending (kind : RKind) (msg : String) (links : List String)
  | spawning (myIdx : Nat) (links : List String)
  | finishing
  deriving DecidableEq, Repr

/-- One in-flight invocation of `Crawl`: its arguments (`url`, remaining
`depth`), its position `phase` in the body, and ghost history: `dist` is the
recursion distance from the seed task and `pidx` the output index of the
parent task's result line (`none` for the seed). -/
structure Task where
  url : String
  depth : Int
  dist : Nat
  pidx : Option Nat
  phase : Phase
  deriving DecidableEq, Repr

/-- One line delivered on the channel and printed by `main`: the rendered
`text` plus ghost fields (emitting task's address, result kind, and the
output index of the emitter's parent's line). -/
structure Msg where
  text : String
  addr : String
  kind : RKind
  pidx : Option Nat
  deriving DecidableEq, Repr

/-- The consumer (`main`) between its counter reads: `waitZero` is the
busy-wait `for sreg.Count() == 0 {}`; `outerCheck` is the condition of
`for sreg.Count() > 0`; `receiving` is `for res := range ch` blocked on a
receive; `postRecv` is the `if sreg.Count() == 0 { break }` after printing;
`done` means `main` has fallen out of both loops. -/
inductive CMode where
  | waitZero
  | outerCheck
  | receiving
  | postRecv
  | done
  deriving DecidableEq, Repr

/-- The shared state of the program: the in-flight tasks, the `SafeRegister`
contents (`visited` = field `v`, `counter` = field `o`), the lines delivered
so far (`output`), the consumer position, and the ghost logs. -/
structure State where
  tasks : List Task
  visited : List String
  counter : Int
  output : List Msg
  fetchLog : List (String × Nat × Bool)
  spawnLog : List String
  attempts : Nat
  consumer : CMode
  deriving DecidableEq, Repr

/-- `fmt.Sprintf("found: %s %q\n", url, body)` (no escaping needed for the
fixture bodies). -/
def foundMsg (url body : String) : String :=
  "found: " ++ url ++ " \"" ++ body ++ "\"\n"

/-- `fmt.Errorf("already fetched %s", url).Error()`. -/
def alreadyMsg (url : String) : String :=
  "already fetched " ++ url

/-- One micro-step of task `i` (the atomic region starting at the task's
current phase), or `s` unchanged when `i` is out of range or the task is
blocked on the channel send.  Mirrors the body of `Crawl` region by region:
`spawned` runs `sreg.Inc()` and the `depth <= 0` test; `checking` runs
`sreg.In(url)`; `toFetch` runs `fetcher.Fetch(url)`; `adding` runs
`sreg.Add(url)` (success path only, before the send); `sending` is the
rendezvous `ch <- msg`, enabled only while `main` is blocked in `range ch`;
`spawning` executes one `go Crawl(u, depth-1, fetcher)`; `finishing` runs
the deferred `sreg.Dec()` and removes the goroutine. -/
def stepTask (f : Fetcher) (s : State) (i : Nat) : State :=
  match s.tasks[i]? with
  | none => s
  | some t =>
    match t.phase with
    | .spawned =>
        if t.depth ≤ 0 then
          { s with counter := s.counter + 1,
                   tasks := s.tasks.set i ({ t with phase := .finishing }) }
        else
          { s with counter := s.counter + 1, attempts := s.attempts + 1,
                   tasks := s.tasks.set i ({ t with phase := .checking }) }
    | .checking =>
        if t.url ∈ s.visited then
          { s with tasks :=
              s.tasks.set i ({ t with phase := .sending .already (alreadyMsg t.url) [] }) }
        else
          { s with tasks := s.tasks.set i ({ t with phase := .toFetch }) }
    | .toFetch =>
        match f t.url with
        | .error e =>
            { s with fetchLog := s.fetchLog ++ [(t.url, t.dist, false)],
                     tasks := s.tasks.set i ({ t with phase := .sending .fetchError e [] }) }
        | .ok (body, links) =>
            { s with fetchLog := s.fetchLog ++ [(t.url, t.dist, true)],
                     tasks := s.tasks.set i ({ t with phase := .adding body links }) }
    | .adding body links =>
        { s with visited := s.visited ++ [t.url],
                 tasks :=
                   s.tasks.set i ({ t with phase := .sending .found (foundMsg t.url body) links }) }
    | .sending k m links =>
        if s.consumer = .receiving then
          { s with output := s.output ++ [⟨m, t.url, k, t.pidx⟩],
                   consumer := .postRecv,
                   tasks :=
                     s.tasks.set i ({ t with phase := .spawning s.output.length links }) }
        else s
    | .spawning _ [] =>
        { s with tasks := s.tasks.set i ({ t with phase := .finishing }) }
    | .spawning myIdx (u :: rest) =>
        { s with tasks := (s.tasks.set i ({ t with phase := .spawning myIdx rest }))
                   ++ [⟨u, t.depth - 1, t.dist + 1, some myIdx, .spawned⟩],
                 spawnLog := s.spawnLog ++ [u] }
    | .finishing =>
        { s with counter := s.counter - 1, tasks := s.tasks.eraseIdx i }

/-- One counter read by `main`'s event loop (all channel receives happen
inside `stepTask`'s rendezvous, so the consumer's own steps are exactly its
reads of `sreg.Count()`). -/
def stepMain (s : State) : State :=
  match s.consumer with
  | .waitZero => if s.counter = 0 then s else { s with consumer := .outerCheck }
  | .outerCheck =>
      if s.counter > 0 then { s with consumer := .receiving }
      else { s with consumer := .done }
  | .receiving => s
  | .postRecv =>
      if s.counter = 0 then { s with consumer := .outerCheck }
      else { s with consumer := .receiving }
  | .done => s

/-- One step of the whole program under scheduler choice `c`: `0` schedules
`main`, `i + 1` schedules a micro-step of task `i`. -/
def exec (f : Fetcher) (s : State) : Nat → State
  | 0 => stepMain s
  | i + 1 => stepTask f s i

/-- Run a finite schedule. -/
def run (f : Fetcher) (s : State) (cs : List Nat) : State :=
  cs.foldl (exec f) s

/-- The state right after `main` executes `go Crawl(url, depth, fetcher)`:
one spawned seed task, empty register, zero counter, consumer entering its
busy-wait. -/
def init (url : String) (depth : Int) : State :=
  { tasks := [⟨url, depth, 0, none, .spawned⟩]
    visited := []
    counter := 0
    output := []
    fetchLog := []
    spawnLog := [url]
    attempts := 0
    consumer := .waitZero }

/-- The populated `fakeFetcher` fixture `fetcher` of the source, including
`fakeFetcher.Fetch`'s "not found" error for absent URLs. -/
def fetcher : Fetcher := fun url =>
  if url = "https://golang.org/" then
    .ok ("The Go Programming Language",
      ["https://golang.org/pkg/", "https://golang.org/cmd/"])
  else if url = "https://golang.org/pkg/" then
    .ok ("Packages",
      ["https://golang.org/", "https://golang.org/cmd/",
       "https://golang.org/pkg/fmt/", "https://golang.org/pkg/os/"])
  else if url = "https://golang.org/pkg/fmt/" then
    .ok ("Package fmt", ["https://golang.org/", "https://golang.org/pkg/"])
  else if url = "https://golang.org/pkg/os/" then
    .ok ("Package os", ["https://golang.org/", "https://golang.org/pkg/"])
  else .error ("not found: " ++ url)

/-- A canned fetcher for a two-page cyclic link graph: `A` links to `B` and
`B` links back to `A` (the cycle scenario of the spec). -/
def cyc : Fetcher := fun url =>
  if url = "A" then .ok ("pageA", ["B"])
  else if url = "B" then .ok ("pageB", ["A"])
  else .error ("not found: " ++ url)

/-- A canned fetcher for a diamond link graph: `a` links to `b` and `c`,
which both link to `d` — so `d` is discovered concurrently from two distinct
parent tasks. -/
def dmd : Fetcher := fun url =>
  if url = "a" then .ok ("", ["b", "c"])
  else if url = "b" then .ok ("", ["d"])
  else if url = "c" then .ok ("", ["d"])
  else if url = "d" then .ok ("", [])
  else .error ("not found: " ++ url)

/-- How many times the fetch capability has been invoked for address `a`. -/
def countFetches (s : State) (a : String) : Nat :=
  (s.fetchLog.map (fun e => if e.1 = a then 1 else 0)).sum

/-- How many tasks have been created for address `a` (the seed included). -/
def countSpawns (s : State) (a : String) : Nat :=
  (s.spawnLog.map (fun u => if u = a then 1 else 0)).sum

/-- No step can change the state any more: `main` is past all its reads (or
spinning in place) and every remaining task is blocked forever on the
channel send.  In the Go program this is the point where `main` exits and
the blocked goroutines are killed, their results never delivered. -/
def Stuck (f : Fetcher) (s : State) : Prop :=
  stepMain s = s ∧ ∀ i < s.tasks.length, stepTask f s i = s

instance (f : Fetcher) (s : State) : Decidable (Stuck f s) :=
  inferInstanceAs (Decidable (_ ∧ _))

/-! ### Concrete schedules

`seedURL` abbreviates the hard-coded seed of `main`.  The schedules below
are hand-picked interleavings; `run` evaluates them, so each theorem about
them is a statement about one concrete execution of the program. -/

/-- The seed address hard-coded in `main`. -/
def seedURL : String := "https://golang.org/"

/-- Schedule in which the seed task runs to completion before either of its
spawned children is scheduled for the first time: the in-flight counter
drops back to `0` while two spawned-but-never-started tasks remain. -/
def raceSched : List Nat := [1, 0, 0, 1, 1, 1, 1, 1, 1, 1, 1]

/-- `raceSched` continued: `main` reads the counter at `0` twice and exits
its consumer loop, then the two orphaned children run until both block
forever on the channel send, their results undeliverable. -/
def lossSched : List Nat := raceSched ++ [0, 0] ++ [1, 1, 1, 1] ++ [2, 2, 2]

/-- Scheduler block for a task at list position `0` whose fetch succeeds
with `k` links, with the consumer acknowledging the delivered line. -/
def foundBlk (k : Nat) : List Nat :=
  [1, 1, 1, 1, 1, 0] ++ List.replicate k 1 ++ [1, 1]

/-- Scheduler block for a task at list position `0` whose fetch fails. -/
def errBlk : List Nat := [1, 1, 1, 1, 0, 1, 1]

/-- Scheduler block for a task at list position `0` whose address is already
in the visited register. -/
def alreadyBlk : List Nat := [1, 1, 1, 0, 1, 1]

/-- Closing scheduler block: the last (already-visited) task delivers its
line and decrements the counter to zero, after which `main` reads `0` and
leaves both loops. -/
def lastBlk : List Nat := [1, 1, 1, 1, 1] ++ [0, 0]

/-- A complete, loss-free interleaving of the reference crawl
(`Crawl(seedURL, 4, fetcher)`): tasks run one at a time in creation order
and `main` consumes every line; the final state has no tasks left and the
consumer out of its loop. -/
def fullSched : List Nat :=
  ([1, 0, 0] ++ [1, 1, 1, 1, 0] ++ [1, 1] ++ [1, 1]) ++ foundBlk 4 ++ errBlk
    ++ alreadyBlk ++ errBlk ++ foundBlk 2 ++ foundBlk 2
    ++ alreadyBlk ++ alreadyBlk ++ alreadyBlk ++ lastBlk

/-- A complete interleaving of a crawl over the cyclic graph `cyc` from
seed `A` at depth 4. -/
def cycSched : List Nat :=
  ([1, 0, 0] ++ [1, 1, 1, 1, 0] ++ [1] ++ [1, 1]) ++ foundBlk 1 ++ lastBlk

/-- An interleaving of a crawl over the diamond graph `dmd` in which the two
tasks for `d` (children of distinct parents `b` and `c`) both pass the
`sreg.In` membership check before either performs `sreg.Add`, so both
invoke the fetch capability on `d` — successfully, twice. -/
def dmdSched : List Nat :=
  ([1, 0, 0] ++ [1, 1, 1, 1, 0] ++ [1, 1] ++ [1, 1]) ++ foundBlk 1 ++ foundBlk 1
    ++ [1, 1, 2, 2, 1, 2]

/-! ### Invariant predicates and the termination measure -/

/-- Weight `1` on the phases in which a task has not yet invoked the fetch
capability (and still might), `0` elsewhere. -/
def preW : Phase → Nat
  | .spawned => 1
  | .checking => 1
  | .toFetch => 1
  | .adding _ _ => 0
  | .sending _ _ _ => 0
  | .spawning _ _ => 0
  | .finishing => 0

/-- Weight `1` on the phases in which a task has passed the `depth <= 0`
test but has not yet delivered its line on the channel, `0` elsewhere. -/
def pendW : Phase → Nat
  | .spawned => 0
  | .checking => 1
  | .toFetch => 1
  | .adding _ _ => 1
  | .sending _ _ _ => 1
  | .spawning _ _ => 0
  | .finishing => 0

/-- Per-address accounting: fetch invocations for `a` performed so far, plus
tasks for `a` that could still fetch, never exceed the tasks created
for `a`.  (Each task invokes the fetch capability at most once.) -/
def InvFetchCount (s : State) : Prop :=
  ∀ a : String,
    countFetches s a
        + (s.tasks.map (fun t => (if t.url = a then 1 else 0) * preW t.phase)).sum
      ≤ countSpawns s a

/-- Result-accounting: lines delivered, plus tasks that owe a line, never
exceed the tasks that ran with positive remaining depth. -/
def InvResultCount (s : State) : Prop :=
  s.output.length + (s.tasks.map (fun t => pendW t.phase)).sum ≤ s.attempts

/-- Parent-before-child bookkeeping: every recorded parent-line index (on a
task or on a delivered line) points strictly below the output frontier, and
a task in its spawning phase has already delivered its own line. -/
def InvParent (s : State) : Prop :=
  (∀ t ∈ s.tasks, ∀ i : Nat, t.pidx = some i → i < s.output.length) ∧
  (∀ t ∈ s.tasks, ∀ j links, t.phase = .spawning j links → j < s.output.length) ∧
  (∀ j : Nat, ∀ m : Msg, s.output[j]? = some m →
    ∀ i : Nat, m.pidx = some i → i < j)

/-- Depth bookkeeping for a crawl started at depth `D`: every task's
distance from the seed plus its remaining depth is exactly `D`, every task
past the depth test has positive remaining depth, and every fetch was
performed at distance at most `D - 1`. -/
def InvDepth (D : Int) (s : State) : Prop :=
  (∀ t ∈ s.tasks, (t.dist : Int) + t.depth = D ∧
    (t.phase = .spawned ∨ t.phase = .finishing ∨ 1 ≤ t.depth)) ∧
  (∀ e ∈ s.fetchLog, (e.2.1 : Int) ≤ D - 1)

/-- Register soundness: an address enters the visited register only after a
successful fetch of it, a task about to run `sreg.Add` has such a fetch
behind it, a task about to deliver an "already fetched" line found its
address in the register, and every delivered `already` line is for a
registered address. -/
def InvVisited (s : State) : Prop :=
  (∀ a ∈ s.visited, ∃ k : Nat, (a, k, true) ∈ s.fetchLog) ∧
  (∀ t ∈ s.tasks, ∀ b links, t.phase = .adding b links →
    ∃ k : Nat, (t.url, k, true) ∈ s.fetchLog) ∧
  (∀ t ∈ s.tasks, ∀ m links, t.phase = .sending .already m links →
    t.url ∈ s.visited) ∧
  (∀ e ∈ s.output, e.kind = .already → e.addr ∈ s.visited)

/-- The states reachable from `init url d` when `d ≤ 0`: the seed task runs
`sreg.Inc()`, fails the depth test, runs the deferred `sreg.Dec()` and
disappears; nothing else ever happens. -/
def InvDepthZero (url : String) (d : Int) (s : State) : Prop :=
  s.output = [] ∧ s.visited = [] ∧ s.fetchLog = [] ∧ s.spawnLog = [url] ∧
  s.attempts = 0 ∧
  (s.tasks = [] ∨ s.tasks = [⟨url, d, 0, none, .spawned⟩] ∨
    s.tasks = [⟨url, d, 0, none, .finishing⟩])

/-- The states reachable from `init url d` when `0 < d` and the fetch of
`url` fails with message `m`: the single task walks the error path of
`Crawl` (no registration, no children), delivering exactly one error line. -/
def InvErrPath (url m : String) (d : Int) (s : State) : Prop :=
  s.visited = [] ∧ s.spawnLog = [url] ∧
  ((s.tasks = [⟨url, d, 0, none, .spawned⟩] ∧ s.output = [] ∧ s.fetchLog = []) ∨
   (s.tasks = [⟨url, d, 0, none, .checking⟩] ∧ s.output = [] ∧ s.fetchLog = []) ∨
   (s.tasks = [⟨url, d, 0, none, .toFetch⟩] ∧ s.output = [] ∧ s.fetchLog = []) ∨
   (s.tasks = [⟨url, d, 0, none, .sending .fetchError m []⟩] ∧ s.output = [] ∧
      s.fetchLog = [(url, 0, false)]) ∨
   (s.tasks = [⟨url, d, 0, none, .spawning 0 []⟩] ∧
      s.output = [⟨m, url, .fetchError, none⟩] ∧ s.fetchLog = [(url, 0, false)]) ∨
   (s.tasks = [⟨url, d, 0, none, .finishing⟩] ∧
      s.output = [⟨m, url, .fetchError, none⟩] ∧ s.fetchLog = [(url, 0, false)]) ∨
   (s.tasks = [] ∧ s.output = [⟨m, url, .fetchError, none⟩] ∧
      s.fetchLog = [(url, 0, false)]))

/-- Upper bound on the number of micro-steps a freshly spawned task and all
its descendants can ever take, for remaining depth `n` and at most `B`
links per page: a task itself takes at most `7 + B` micro-steps. -/
def pot (B : Nat) : Nat → Nat
  | 0 => 2
  | n + 1 => B * (1 + pot B n) + 7

/-- Remaining micro-step budget of a task, by phase. -/
def phasePot (B : Nat) (d : Int) : Phase → Nat
  | .spawned => pot B d.toNat
  | .checking => B * (1 + pot B (d - 1).toNat) + 6
  | .toFetch => B * (1 + pot B (d - 1).toNat) + 5
  | .adding _ links => links.length * (1 + pot B (d - 1).toNat) + 4
  | .sending _ _ links => links.length * (1 + pot B (d - 1).toNat) + 3
  | .spawning _ links => links.length * (1 + pot B (d - 1).toNat) + 2
  | .finishing => 1

/-- Remaining micro-step budget of a task. -/
def taskPot (B : Nat) (t : Task) : Nat :=
  phasePot B t.depth t.phase

/-- Termination measure: total remaining micro-step budget of all in-flight
tasks. -/
def mu (B : Nat) (s : State) : Nat :=
  (s.tasks.map (taskPot B)).sum

/-- The number of effective task micro-steps a schedule performs (scheduler
choices that pick a task and change the state). -/
def effSteps (f : Fetcher) : State → List Nat → Nat
  | _, [] => 0
  | s, c :: cs =>
      (if c ≠ 0 ∧ exec f s c ≠ s then 1 else 0) + effSteps f (exec f s c) cs

/-! ### Concrete executions: the completion race and its consequences -/

set_option maxRecDepth 40000

/-- The completion-detection race (spec §9's "latent bug", claim C2 refuted
on the code): under `raceSched` the seed task of `Crawl(seedURL, 4, fetcher)`
increments, delivers its line, spawns its two children and runs its deferred
`sreg.Dec()` before either child goroutine has executed its `sreg.Inc()`, so
the counter reads zero while two spawned-but-never-started tasks remain;
two further counter reads then make `main` leave the consumer loop for good
with both tasks still pending. -/
theorem counterZeroRace :
    ((run fetcher (init seedURL 4) raceSched).counter = 0 ∧
      (run fetcher (init seedURL 4) raceSched).consumer ≠ CMode.done ∧
      (run fetcher (init seedURL 4) raceSched).tasks.map Task.phase =
        [Phase.spawned, Phase.spawned]) ∧
    ((run fetcher (init seedURL 4) (raceSched ++ [0, 0])).consumer = CMode.done ∧
      (run fetcher (init seedURL 4) (raceSched ++ [0, 0])).tasks.length = 2) := by
  decide

/-- Results are lost after the completion race (claim C4 refuted on the
code): continuing `raceSched`, the two orphaned tasks run with positive
remaining depth (three attempts in total, so three lines owed) but block
forever on the channel send, `main` having exited; the state is stuck with
only one line ever delivered. -/
theorem resultsLost :
    (run fetcher (init seedURL 4) lossSched).attempts = 3 ∧
    (run fetcher (init seedURL 4) lossSched).output.length = 1 ∧
    (run fetcher (init seedURL 4) lossSched).consumer = CMode.done ∧
    (run fetcher (init seedURL 4) lossSched).tasks.length = 2 ∧
    Stuck fetcher (run fetcher (init seedURL 4) lossSched) := by
  decide

/-- Counterexample to claim C1 (fetch-at-most-once per address): in the
complete reference crawl `fullSched`, the address `https://golang.org/cmd/`
is fetched twice — its first fetch fails, so it is never registered, and
the second task for it fetches again.  Moreover fetch-at-most-once fails
even for successful fetches: in the diamond graph `dmd`, the two tasks for
`d` (spawned by the distinct parents `b` and `c`) both pass the
`sreg.In` membership check before either runs `sreg.Add`, and both fetch
`d` successfully, because the check and the registration are separate
critical sections rather than one atomic test-and-set. -/
theorem fetchedTwice :
    countFetches (run fetcher (init seedURL 4) fullSched)
        "https://golang.org/cmd/" = 2 ∧
    (run dmd (init "a" 4) dmdSched).fetchLog.filter (fun e => e.1 = "d") =
      [("d", 2, true), ("d", 2, true)] := by
  decide

/-- Counterexample to claim C9 (exactly one outcome line per address): in
the complete reference crawl `fullSched`, the seed address receives four
lines — one `found` and three `already fetched`. -/
theorem fourLinesForSeed :
    ((run fetcher (init seedURL 4) fullSched).output.filter
        (fun e => e.addr = seedURL)).map Msg.kind =
      [RKind.found, RKind.already, RKind.already, RKind.already] := by
  decide


/-! ### Generic bookkeeping lemmas -/

theorem mapSum_set_aux {α : Type} (g : α → Nat) :
    ∀ (l : List α) (i : Nat) (t t' : α), l[i]? = some t →
      ((l.set i t').map g).sum + g t = (l.map g).sum + g t' := by
  intro l
  induction l with
  | nil => intro i t t' h; simp at h
  | cons a l ih =>
    intro i t t' h
    cases i with
    | zero =>
      simp at h; subst h
      simp only [List.set_cons_zero, List.map_cons, List.sum_cons]
      omega
    | succ n =>
      simp at h
      have := ih n t t' h
      simp only [List.set_cons_succ, List.map_cons, List.sum_cons]
      omega

theorem mapSum_eraseIdx_aux {α : Type} (g : α → Nat) :
    ∀ (l : List α) (i : Nat) (t : α), l[i]? = some t →
      ((l.eraseIdx i).map g).sum + g t = (l.map g).sum := by
  intro l
  induction l with
  | nil => intro i t h; simp at h
  | cons a l ih =>
    intro i t h
    cases i with
    | zero =>
      simp at h; subst h
      simp only [List.eraseIdx_cons_zero, List.map_cons, List.sum_cons]
      omega
    | succ n =>
      simp at h
      have := ih n t h
      simp only [List.eraseIdx_cons_succ, List.map_cons, List.sum_cons]
      omega

theorem stepMain_ghost (s : State) :
    (stepMain s).tasks = s.tasks ∧ (stepMain s).visited = s.visited ∧
    (stepMain s).output = s.output ∧ (stepMain s).fetchLog = s.fetchLog ∧
    (stepMain s).spawnLog = s.spawnLog ∧ (stepMain s).attempts = s.attempts := by
  cases h : s.consumer <;> simp only [stepMain, h] <;> (try split) <;> simp

theorem mem_set_cases {α : Type} {l : List α} {i : Nat} {t' x : α}
    (hx : x ∈ l.set i t') : x ∈ l ∨ x = t' :=
  List.mem_or_eq_of_mem_set hx

theorem concat_lookup {α : Type} {l : List α} {m x : α} {j : Nat}
    (hj : (l ++ [m])[j]? = some x) :
    (j < l.length ∧ l[j]? = some x) ∨ (j = l.length ∧ x = m) := by
  rcases Nat.lt_trichotomy j l.length with hlt | heq | hgt
  · left
    exact ⟨hlt, by rw [List.getElem?_append_left hlt] at hj; exact hj⟩
  · right
    refine ⟨heq, ?_⟩
    subst heq
    rw [List.getElem?_concat_length] at hj
    exact (Option.some_inj.mp hj).symm
  · exfalso
    have hlen : (l ++ [m]).length ≤ j := by simp; omega
    rw [List.getElem?_eq_none hlen] at hj
    cases hj

theorem run_preserve (f : Fetcher) (P : State → Prop)
    (hstep : ∀ s c, P s → P (exec f s c)) :
    ∀ (cs : List Nat) (s : State), P s → P (run f s cs) := by
  intro cs
  induction cs with
  | nil => intro s h; exact h
  | cons c cs ih => intro s h; exact ih (exec f s c) (hstep s c h)


/-! ### Preservation of the invariants by every scheduler step -/

theorem InvFetchCount_step (f : Fetcher) (s : State) (c : Nat)
    (h : InvFetchCount s) : InvFetchCount (exec f s c) :=
  match c with
  | 0 => by
    obtain ⟨h1, h2, h3, h4, h5, h6⟩ := stepMain_ghost s
    show InvFetchCount (stepMain s)
    unfold InvFetchCount countFetches countSpawns at h ⊢
    rw [h1, h4, h5]
    exact h
  | i + 1 => by
    show InvFetchCount (stepTask f s i)
    unfold InvFetchCount countFetches countSpawns at h ⊢
    intro a
    have h := h a
    cases hg : s.tasks[i]? with
    | none => simp only [stepTask, hg]; exact h
    | some t =>
      have hc := fun t' =>
        mapSum_set_aux (fun t => (if t.url = a then 1 else 0) * preW t.phase)
          s.tasks i t t' hg
      cases hph : t.phase with
      | spawned =>
        simp only [stepTask, hg, hph]
        split
        · have := hc ({ t with phase := .finishing })
          simp only [preW, hph, mul_zero, mul_one] at this h ⊢
          omega
        · have := hc ({ t with phase := .checking })
          simp only [preW, hph, mul_zero, mul_one] at this h ⊢
          omega
      | checking =>
        simp only [stepTask, hg, hph]
        split
        · have := hc ({ t with phase := .sending .already (alreadyMsg t.url) [] })
          simp only [preW, hph, mul_zero, mul_one] at this h ⊢
          omega
        · have := hc ({ t with phase := .toFetch })
          simp only [preW, hph, mul_zero, mul_one] at this h ⊢
          omega
      | toFetch =>
        simp only [stepTask, hg, hph]
        cases hfu : f t.url with
        | error e =>
          have := hc ({ t with phase := .sending .fetchError e [] })
          simp only [preW, hph, mul_zero, mul_one, List.map_append, List.sum_append,
            List.map_cons, List.sum_cons, List.map_nil, List.sum_nil] at this h ⊢
          omega
        | ok r =>
          obtain ⟨body, links⟩ := r
          have := hc ({ t with phase := .adding body links })
          simp only [preW, hph, mul_zero, mul_one, List.map_append, List.sum_append,
            List.map_cons, List.sum_cons, List.map_nil, List.sum_nil] at this h ⊢
          omega
      | adding body links =>
        simp only [stepTask, hg, hph]
        have := hc ({ t with phase := .sending .found (foundMsg t.url body) links })
        simp only [preW, hph, mul_zero, mul_one] at this h ⊢
        omega
      | sending k m links =>
        simp only [stepTask, hg, hph]
        split
        · have := hc ({ t with phase := .spawning s.output.length links })
          simp only [preW, hph, mul_zero, mul_one] at this h ⊢
          omega
        · exact h
      | spawning myIdx links =>
        cases links with
        | nil =>
          simp only [stepTask, hg, hph]
          have := hc ({ t with phase := .finishing })
          simp only [preW, hph, mul_zero, mul_one] at this h ⊢
          omega
        | cons u rest =>
          simp only [stepTask, hg, hph]
          have := hc ({ t with phase := .spawning myIdx rest })
          simp only [preW, hph, mul_zero, mul_one, List.map_append, List.sum_append,
            List.map_cons, List.sum_cons, List.map_nil, List.sum_nil] at this h ⊢
          omega
      | finishing =>
        have he := mapSum_eraseIdx_aux
          (fun t => (if t.url = a then 1 else 0) * preW t.phase) s.tasks i t hg
        simp only [stepTask, hg, hph]
        simp only [preW, hph, mul_zero, mul_one] at he h ⊢
        omega

theorem InvResultCount_step (f : Fetcher) (s : State) (c : Nat)
    (h : InvResultCount s) : InvResultCount (exec f s c) :=
  match c with
  | 0 => by
    obtain ⟨h1, h2, h3, h4, h5, h6⟩ := stepMain_ghost s
    show InvResultCount (stepMain s)
    unfold InvResultCount at h ⊢
    rw [h1, h3, h6]
    exact h
  | i + 1 => by
    show InvResultCount (stepTask f s i)
    unfold InvResultCount at h ⊢
    cases hg : s.tasks[i]? with
    | none => simp only [stepTask, hg]; exact h
    | some t =>
      have hc := fun t' => mapSum_set_aux (fun t => pendW t.phase) s.tasks i t t' hg
      cases hph : t.phase with
      | spawned =>
        simp only [stepTask, hg, hph]
        split
        · have := hc ({ t with phase := .finishing })
          simp only [pendW, hph, List.length_append, List.map_append, List.sum_append, List.map_cons, List.sum_cons, List.map_nil, List.sum_nil, List.length_cons, List.length_nil] at this h ⊢
          omega
        · have := hc ({ t with phase := .checking })
          simp only [pendW, hph, List.length_append, List.map_append, List.sum_append, List.map_cons, List.sum_cons, List.map_nil, List.sum_nil, List.length_cons, List.length_nil] at this h ⊢
          omega
      | checking =>
        simp only [stepTask, hg, hph]
        split
        · have := hc ({ t with phase := .sending .already (alreadyMsg t.url) [] })
          simp only [pendW, hph, List.length_append, List.map_append, List.sum_append, List.map_cons, List.sum_cons, List.map_nil, List.sum_nil, List.length_cons, List.length_nil] at this h ⊢
          omega
        · have := hc ({ t with phase := .toFetch })
          simp only [pendW, hph, List.length_append, List.map_append, List.sum_append, List.map_cons, List.sum_cons, List.map_nil, List.sum_nil, List.length_cons, List.length_nil] at this h ⊢
          omega
      | toFetch =>
        simp only [stepTask, hg, hph]
        cases hfu : f t.url with
        | error e =>
          have := hc ({ t with phase := .sending .fetchError e [] })
          simp only [pendW, hph, List.length_append, List.map_append, List.sum_append, List.map_cons, List.sum_cons, List.map_nil, List.sum_nil, List.length_cons, List.length_nil] at this h ⊢
          omega
        | ok r =>
          obtain ⟨body, links⟩ := r
          have := hc ({ t with phase := .adding body links })
          simp only [pendW, hph, List.length_append, List.map_append, List.sum_append, List.map_cons, List.sum_cons, List.map_nil, List.sum_nil, List.length_cons, List.length_nil] at this h ⊢
          omega
      | adding body links =>
        simp only [stepTask, hg, hph]
        have := hc ({ t with phase := .sending .found (foundMsg t.url body) links })
        simp only [pendW, hph, List.length_append, List.map_append, List.sum_append, List.map_cons, List.sum_cons, List.map_nil, List.sum_nil, List.length_cons, List.length_nil] at this h ⊢
        omega
      | sending k m links =>
        simp only [stepTask, hg, hph]
        split
        · have := hc ({ t with phase := .spawning s.output.length links })
          simp only [pendW, hph, List.length_append, List.map_append, List.sum_append, List.map_cons, List.sum_cons, List.map_nil, List.sum_nil, List.length_cons, List.length_nil] at this h ⊢
          omega
        · exact h
      | spawning myIdx links =>
        cases links with
        | nil =>
          simp only [stepTask, hg, hph]
          have := hc ({ t with phase := .finishing })
          simp only [pendW, hph, List.length_append, List.map_append, List.sum_append, List.map_cons, List.sum_cons, List.map_nil, List.sum_nil, List.length_cons, List.length_nil] at this h ⊢
          omega
        | cons u rest =>
          simp only [stepTask, hg, hph]
          have := hc ({ t with phase := .spawning myIdx rest })
          simp only [pendW, hph, List.length_append, List.map_append, List.sum_append, List.map_cons, List.sum_cons, List.map_nil, List.sum_nil, List.length_cons, List.length_nil] at this h ⊢
          omega
      | finishing =>
        have he := mapSum_eraseIdx_aux (fun t => pendW t.phase) s.tasks i t hg
        simp only [stepTask, hg, hph]
        simp only [pendW, hph, List.length_append, List.map_append, List.sum_append, List.map_cons, List.sum_cons, List.map_nil, List.sum_nil, List.length_cons, List.length_nil] at he h ⊢
        omega


theorem InvParent_step (f : Fetcher) (s : State) (c : Nat)
    (h : InvParent s) : InvParent (exec f s c) :=
  match c with
  | 0 => by
    obtain ⟨h1, h2, h3, h4, h5, h6⟩ := stepMain_ghost s
    show InvParent (stepMain s)
    unfold InvParent at h ⊢
    rw [h1, h3]
    exact h
  | i + 1 => by
    show InvParent (stepTask f s i)
    obtain ⟨ha, hb, ho⟩ := h
    cases hg : s.tasks[i]? with
    | none =>
      simp only [stepTask, hg]
      exact ⟨ha, hb, ho⟩
    | some t =>
      have htmem : t ∈ s.tasks := List.getElem?_mem hg
      cases hph : t.phase with
      | spawned =>
        simp only [stepTask, hg, hph]
        split <;>
        · refine ⟨?_, ?_, ho⟩
          · intro x hx j hj
            rcases mem_set_cases hx with hx | rfl
            · exact ha x hx j hj
            · exact ha t htmem j hj
          · intro x hx j links hjl
            rcases mem_set_cases hx with hx | rfl
            · exact hb x hx j links hjl
            · cases hjl
      | checking =>
        simp only [stepTask, hg, hph]
        split <;>
        · refine ⟨?_, ?_, ho⟩
          · intro x hx j hj
            rcases mem_set_cases hx with hx | rfl
            · exact ha x hx j hj
            · exact ha t htmem j hj
          · intro x hx j links hjl
            rcases mem_set_cases hx with hx | rfl
            · exact hb x hx j links hjl
            · cases hjl
      | toFetch =>
        simp only [stepTask, hg, hph]
        cases hfu : f t.url with
        | error e =>
          refine ⟨?_, ?_, ho⟩
          · intro x hx j hj
            rcases mem_set_cases hx with hx | rfl
            · exact ha x hx j hj
            · exact ha t htmem j hj
          · intro x hx j links hjl
            rcases mem_set_cases hx with hx | rfl
            · exact hb x hx j links hjl
            · cases hjl
        | ok r =>
          obtain ⟨body, links⟩ := r
          refine ⟨?_, ?_, ho⟩
          · intro x hx j hj
            rcases mem_set_cases hx with hx | rfl
            · exact ha x hx j hj
            · exact ha t htmem j hj
          · intro x hx j links2 hjl
            rcases mem_set_cases hx with hx | rfl
            · exact hb x hx j links2 hjl
            · cases hjl
      | adding body links =>
        simp only [stepTask, hg, hph]
        refine ⟨?_, ?_, ho⟩
        · intro x hx j hj
          rcases mem_set_cases hx with hx | rfl
          · exact ha x hx j hj
          · exact ha t htmem j hj
        · intro x hx j links2 hjl
          rcases mem_set_cases hx with hx | rfl
          · exact hb x hx j links2 hjl
          · cases hjl
      | sending k m links =>
        simp only [stepTask, hg, hph]
        split
        · refine ⟨?_, ?_, ?_⟩
          · intro x hx j hj
            rcases mem_set_cases hx with hx | rfl
            · have := ha x hx j hj
              simp only [List.length_append, List.length_cons, List.length_nil]
              omega
            · have := ha t htmem j hj
              simp only [List.length_append, List.length_cons, List.length_nil]
              omega
          · intro x hx j links2 hjl
            rcases mem_set_cases hx with hx | rfl
            · have := hb x hx j links2 hjl
              simp only [List.length_append, List.length_cons, List.length_nil]
              omega
            · cases hjl
              simp only [List.length_append, List.length_cons, List.length_nil]
              omega
          · intro j mm hjm jj hjj
            rcases concat_lookup hjm with ⟨hlt, hold⟩ | ⟨hj2, hm2⟩
            · exact ho j mm hold jj hjj
            · subst hj2
              subst hm2
              exact ha t htmem jj hjj
        · exact ⟨ha, hb, ho⟩
      | spawning myIdx links =>
        cases links with
        | nil =>
          simp only [stepTask, hg, hph]
          refine ⟨?_, ?_, ho⟩
          · intro x hx j hj
            rcases mem_set_cases hx with hx | rfl
            · exact ha x hx j hj
            · exact ha t htmem j hj
          · intro x hx j links2 hjl
            rcases mem_set_cases hx with hx | rfl
            · exact hb x hx j links2 hjl
            · cases hjl
        | cons u rest =>
          simp only [stepTask, hg, hph]
          refine ⟨?_, ?_, ho⟩
          · intro x hx j hj
            rcases List.mem_append.mp hx with hx | hx
            · rcases mem_set_cases hx with hx | rfl
              · exact ha x hx j hj
              · exact ha t htmem j hj
            · have hxu : x = ⟨u, t.depth - 1, t.dist + 1, some myIdx, .spawned⟩ := by
                simpa using hx
              subst hxu
              cases hj
              exact hb t htmem myIdx (u :: rest) hph
          · intro x hx j links2 hjl
            rcases List.mem_append.mp hx with hx | hx
            · rcases mem_set_cases hx with hx | rfl
              · exact hb x hx j links2 hjl
              · cases hjl
                exact hb t htmem myIdx (u :: rest) hph
            · have hxu : x = ⟨u, t.depth - 1, t.dist + 1, some myIdx, .spawned⟩ := by
                simpa using hx
              subst hxu
              cases hjl
      | finishing =>
        simp only [stepTask, hg, hph]
        refine ⟨?_, ?_, ho⟩
        · intro x hx j hj
          exact ha x (List.eraseIdx_subset _ _ hx) j hj
        · intro x hx j links2 hjl
          exact hb x (List.eraseIdx_subset _ _ hx) j links2 hjl


theorem InvDepth_step (f : Fetcher) (D : Int) (s : State) (c : Nat)
    (h : InvDepth D s) : InvDepth D (exec f s c) :=
  match c with
  | 0 => by
    obtain ⟨h1, h2, h3, h4, h5, h6⟩ := stepMain_ghost s
    show InvDepth D (stepMain s)
    unfold InvDepth at h ⊢
    rw [h1, h4]
    exact h
  | i + 1 => by
    show InvDepth D (stepTask f s i)
    obtain ⟨ht, hf⟩ := h
    cases hg : s.tasks[i]? with
    | none =>
      simp only [stepTask, hg]
      exact ⟨ht, hf⟩
    | some t =>
      have htmem : t ∈ s.tasks := List.getElem?_mem hg
      have htfact := ht t htmem
      cases hph : t.phase with
      | spawned =>
        simp only [stepTask, hg, hph]
        split
        · refine ⟨?_, hf⟩
          intro x hx
          rcases mem_set_cases hx with hx | rfl
          · exact ht x hx
          · exact ⟨htfact.1, Or.inr (Or.inl rfl)⟩
        · refine ⟨?_, hf⟩
          intro x hx
          rcases mem_set_cases hx with hx | rfl
          · exact ht x hx
          · refine ⟨htfact.1, Or.inr (Or.inr ?_)⟩
            dsimp only
            omega
      | checking =>
        have hdep : 1 ≤ t.depth := by
          rcases htfact.2 with hsp | hfin | hle
          · rw [hph] at hsp; cases hsp
          · rw [hph] at hfin; cases hfin
          · exact hle
        simp only [stepTask, hg, hph]
        split <;>
        · refine ⟨?_, hf⟩
          intro x hx
          rcases mem_set_cases hx with hx | rfl
          · exact ht x hx
          · exact ⟨htfact.1, Or.inr (Or.inr hdep)⟩
      | toFetch =>
        have hdep : 1 ≤ t.depth := by
          rcases htfact.2 with hsp | hfin | hle
          · rw [hph] at hsp; cases hsp
          · rw [hph] at hfin; cases hfin
          · exact hle
        have hdist : (t.dist : Int) ≤ D - 1 := by
          have := htfact.1
          omega
        simp only [stepTask, hg, hph]
        cases hfu : f t.url with
        | error e =>
          refine ⟨?_, ?_⟩
          · intro x hx
            rcases mem_set_cases hx with hx | rfl
            · exact ht x hx
            · exact ⟨htfact.1, Or.inr (Or.inr hdep)⟩
          · intro e2 he2
            rcases List.mem_append.mp he2 with he2 | he2
            · exact hf e2 he2
            · have he3 : e2 = (t.url, t.dist, false) := by simpa using he2
              subst he3
              exact hdist
        | ok r =>
          obtain ⟨body, links⟩ := r
          refine ⟨?_, ?_⟩
          · intro x hx
            rcases mem_set_cases hx with hx | rfl
            · exact ht x hx
            · exact ⟨htfact.1, Or.inr (Or.inr hdep)⟩
          · intro e2 he2
            rcases List.mem_append.mp he2 with he2 | he2
            · exact hf e2 he2
            · have he3 : e2 = (t.url, t.dist, true) := by simpa using he2
              subst he3
              exact hdist
      | adding body links =>
        have hdep : 1 ≤ t.depth := by
          rcases htfact.2 with hsp | hfin | hle
          · rw [hph] at hsp; cases hsp
          · rw [hph] at hfin; cases hfin
          · exact hle
        simp only [stepTask, hg, hph]
        refine ⟨?_, hf⟩
        intro x hx
        rcases mem_set_cases hx with hx | rfl
        · exact ht x hx
        · exact ⟨htfact.1, Or.inr (Or.inr hdep)⟩
      | sending k m links =>
        have hdep : 1 ≤ t.depth := by
          rcases htfact.2 with hsp | hfin | hle
          · rw [hph] at hsp; cases hsp
          · rw [hph] at hfin; cases hfin
          · exact hle
        simp only [stepTask, hg, hph]
        split
        · refine ⟨?_, hf⟩
          intro x hx
          rcases mem_set_cases hx with hx | rfl
          · exact ht x hx
          · exact ⟨htfact.1, Or.inr (Or.inr hdep)⟩
        · exact ⟨ht, hf⟩
      | spawning myIdx links =>
        have hdep : 1 ≤ t.depth := by
          rcases htfact.2 with hsp | hfin | hle
          · rw [hph] at hsp; cases hsp
          · rw [hph] at hfin; cases hfin
          · exact hle
        cases links with
        | nil =>
          simp only [stepTask, hg, hph]
          refine ⟨?_, hf⟩
          intro x hx
          rcases mem_set_cases hx with hx | rfl
          · exact ht x hx
          · exact ⟨htfact.1, Or.inr (Or.inr hdep)⟩
        | cons u rest =>
          simp only [stepTask, hg, hph]
          refine ⟨?_, hf⟩
          intro x hx
          rcases List.mem_append.mp hx with hx | hx
          · rcases mem_set_cases hx with hx | rfl
            · exact ht x hx
            · exact ⟨htfact.1, Or.inr (Or.inr hdep)⟩
          · have hxu : x = ⟨u, t.depth - 1, t.dist + 1, some myIdx, .spawned⟩ := by
              simpa using hx
            subst hxu
            refine ⟨?_, Or.inl rfl⟩
            have := htfact.1
            dsimp only
            omega
      | finishing =>
        simp only [stepTask, hg, hph]
        refine ⟨?_, hf⟩
        intro x hx
        exact ht x (List.eraseIdx_subset _ _ hx)

theorem InvVisited_step (f : Fetcher) (s : State) (c : Nat)
    (h : InvVisited s) : InvVisited (exec f s c) :=
  match c with
  | 0 => by
    obtain ⟨h1, h2, h3, h4, h5, h6⟩ := stepMain_ghost s
    show InvVisited (stepMain s)
    unfold InvVisited at h ⊢
    rw [h1, h2, h3, h4]
    exact h
  | i + 1 => by
    show InvVisited (stepTask f s i)
    obtain ⟨hv, hadd, hsnd, hout⟩ := h
    cases hg : s.tasks[i]? with
    | none =>
      simp only [stepTask, hg]
      exact ⟨hv, hadd, hsnd, hout⟩
    | some t =>
      have htmem : t ∈ s.tasks := List.getElem?_mem hg
      cases hph : t.phase with
      | spawned =>
        simp only [stepTask, hg, hph]
        split <;>
        · refine ⟨hv, ?_, ?_, hout⟩
          · intro x hx b links hb
            rcases mem_set_cases hx with hx | rfl
            · exact hadd x hx b links hb
            · cases hb
          · intro x hx m links hm
            rcases mem_set_cases hx with hx | rfl
            · exact hsnd x hx m links hm
            · cases hm
      | checking =>
        simp only [stepTask, hg, hph]
        split
        · next hin =>
          refine ⟨hv, ?_, ?_, hout⟩
          · intro x hx b links hb
            rcases mem_set_cases hx with hx | rfl
            · exact hadd x hx b links hb
            · cases hb
          · intro x hx m links hm
            rcases mem_set_cases hx with hx | rfl
            · exact hsnd x hx m links hm
            · exact hin
        · refine ⟨hv, ?_, ?_, hout⟩
          · intro x hx b links hb
            rcases mem_set_cases hx with hx | rfl
            · exact hadd x hx b links hb
            · cases hb
          · intro x hx m links hm
            rcases mem_set_cases hx with hx | rfl
            · exact hsnd x hx m links hm
            · cases hm
      | toFetch =>
        simp only [stepTask, hg, hph]
        cases hfu : f t.url with
        | error e =>
          refine ⟨?_, ?_, ?_, hout⟩
          · intro a ha
            obtain ⟨k, hk⟩ := hv a ha
            exact ⟨k, List.mem_append_left _ hk⟩
          · intro x hx b links hb
            rcases mem_set_cases hx with hx | rfl
            · obtain ⟨k, hk⟩ := hadd x hx b links hb
              exact ⟨k, List.mem_append_left _ hk⟩
            · cases hb
          · intro x hx m links hm
            rcases mem_set_cases hx with hx | rfl
            · exact hsnd x hx m links hm
            · cases hm
        | ok r =>
          obtain ⟨body, links⟩ := r
          refine ⟨?_, ?_, ?_, hout⟩
          · intro a ha
            obtain ⟨k, hk⟩ := hv a ha
            exact ⟨k, List.mem_append_left _ hk⟩
          · intro x hx b links2 hb
            rcases mem_set_cases hx with hx | rfl
            · obtain ⟨k, hk⟩ := hadd x hx b links2 hb
              exact ⟨k, List.mem_append_left _ hk⟩
            · exact ⟨t.dist, List.mem_append_right _ (by simp)⟩
          · intro x hx m links2 hm
            rcases mem_set_cases hx with hx | rfl
            · exact hsnd x hx m links2 hm
            · cases hm
      | adding body links =>
        simp only [stepTask, hg, hph]
        refine ⟨?_, ?_, ?_, ?_⟩
        · intro a ha
          rcases List.mem_append.mp ha with ha | ha
          · exact hv a ha
          · have ha2 : a = t.url := by simpa using ha
            subst ha2
            exact hadd t htmem body links hph
        · intro x hx b links2 hb
          rcases mem_set_cases hx with hx | rfl
          · exact hadd x hx b links2 hb
          · cases hb
        · intro x hx m links2 hm
          rcases mem_set_cases hx with hx | rfl
          · exact List.mem_append_left _ (hsnd x hx m links2 hm)
          · cases hm
        · intro e he hk
          exact List.mem_append_left _ (hout e he hk)
      | sending k m links =>
        simp only [stepTask, hg, hph]
        split
        · refine ⟨hv, ?_, ?_, ?_⟩
          · intro x hx b links2 hb
            rcases mem_set_cases hx with hx | rfl
            · exact hadd x hx b links2 hb
            · cases hb
          · intro x hx m2 links2 hm
            rcases mem_set_cases hx with hx | rfl
            · exact hsnd x hx m2 links2 hm
            · cases hm
          · intro e he hk2
            rcases List.mem_append.mp he with he | he
            · exact hout e he hk2
            · have he2 : e = ⟨m, t.url, k, t.pidx⟩ := by simpa using he
              subst he2
              dsimp only at hk2
              subst hk2
              exact hsnd t htmem m links hph
        · exact ⟨hv, hadd, hsnd, hout⟩
      | spawning myIdx links =>
        cases links with
        | nil =>
          simp only [stepTask, hg, hph]
          refine ⟨hv, ?_, ?_, hout⟩
          · intro x hx b links2 hb
            rcases mem_set_cases hx with hx | rfl
            · exact hadd x hx b links2 hb
            · cases hb
          · intro x hx m links2 hm
            rcases mem_set_cases hx with hx | rfl
            · exact hsnd x hx m links2 hm
            · cases hm
        | cons u rest =>
          simp only [stepTask, hg, hph]
          refine ⟨hv, ?_, ?_, hout⟩
          · intro x hx b links2 hb
            rcases List.mem_append.mp hx with hx | hx
            · rcases mem_set_cases hx with hx | rfl
              · exact hadd x hx b links2 hb
              · cases hb
            · have hxu : x = ⟨u, t.depth - 1, t.dist + 1, some myIdx, .spawned⟩ := by
                simpa using hx
              subst hxu
              cases hb
          · intro x hx m links2 hm
            rcases List.mem_append.mp hx with hx | hx
            · rcases mem_set_cases hx with hx | rfl
              · exact hsnd x hx m links2 hm
              · cases hm
            · have hxu : x = ⟨u, t.depth - 1, t.dist + 1, some myIdx, .spawned⟩ := by
                simpa using hx
              subst hxu
              cases hm
      | finishing =>
        simp only [stepTask, hg, hph]
        refine ⟨hv, ?_, ?_, hout⟩
        · intro x hx b links2 hb
          exact hadd x (List.eraseIdx_subset _ _ hx) b links2 hb
        · intro x hx m links2 hm
          exact hsnd x (List.eraseIdx_subset _ _ hx) m links2 hm


theorem InvDepthZero_step (f : Fetcher) (url : String) (d : Int) (hd : d ≤ 0)
    (s : State) (c : Nat) (h : InvDepthZero url d s) :
    InvDepthZero url d (exec f s c) := by
  obtain ⟨ho, hv, hfl, hsp, hat, hts⟩ := h
  match c with
  | 0 =>
    obtain ⟨h1, h2, h3, h4, h5, h6⟩ := stepMain_ghost s
    show InvDepthZero url d (stepMain s)
    rw [InvDepthZero, h1, h2, h3, h4, h5, h6]
    exact ⟨ho, hv, hfl, hsp, hat, hts⟩
  | i + 1 =>
    show InvDepthZero url d (stepTask f s i)
    rcases hts with hts | hts | hts
    · simp only [stepTask, hts, List.getElem?_nil]
      exact ⟨ho, hv, hfl, hsp, hat, Or.inl hts⟩
    · cases i with
      | zero =>
        simp only [stepTask, hts, List.getElem?_cons_zero]
        rw [if_pos hd]
        refine ⟨ho, hv, hfl, hsp, hat, Or.inr (Or.inr ?_)⟩
        simp [hts]
      | succ n =>
        simp only [stepTask, hts, List.getElem?_cons_succ, List.getElem?_nil]
        exact ⟨ho, hv, hfl, hsp, hat, Or.inr (Or.inl hts)⟩
    · cases i with
      | zero =>
        simp only [stepTask, hts, List.getElem?_cons_zero]
        refine ⟨ho, hv, hfl, hsp, hat, Or.inl ?_⟩
        simp [hts]
      | succ n =>
        simp only [stepTask, hts, List.getElem?_cons_succ, List.getElem?_nil]
        exact ⟨ho, hv, hfl, hsp, hat, Or.inr (Or.inr hts)⟩

theorem InvErrPath_step (f : Fetcher) (url m : String) (d : Int)
    (hf : f url = .error m) (hd : 0 < d) (s : State) (c : Nat)
    (h : InvErrPath url m d s) : InvErrPath url m d (exec f s c) := by
  obtain ⟨hv, hsp, hcase⟩ := h
  match c with
  | 0 =>
    obtain ⟨h1, h2, h3, h4, h5, h6⟩ := stepMain_ghost s
    show InvErrPath url m d (stepMain s)
    rw [InvErrPath, h1, h2, h3, h4, h5]
    exact ⟨hv, hsp, hcase⟩
  | i + 1 =>
    show InvErrPath url m d (stepTask f s i)
    rcases hcase with ⟨hts, ho, hfl⟩ | ⟨hts, ho, hfl⟩ | ⟨hts, ho, hfl⟩ |
      ⟨hts, ho, hfl⟩ | ⟨hts, ho, hfl⟩ | ⟨hts, ho, hfl⟩ | ⟨hts, ho, hfl⟩
    · cases i with
      | zero =>
        simp only [stepTask, hts, List.getElem?_cons_zero]
        rw [if_neg (by omega : ¬ d ≤ 0)]
        refine ⟨hv, hsp, Or.inr (Or.inl ⟨?_, ho, hfl⟩)⟩
        simp [hts]
      | succ n =>
        simp only [stepTask, hts, List.getElem?_cons_succ, List.getElem?_nil]
        exact ⟨hv, hsp, Or.inl ⟨hts, ho, hfl⟩⟩
    · cases i with
      | zero =>
        simp only [stepTask, hts, List.getElem?_cons_zero]
        rw [if_neg (by simp [hv] : ¬ (⟨url, d, 0, none, Phase.checking⟩ : Task).url ∈ s.visited)]
        refine ⟨hv, hsp, Or.inr (Or.inr (Or.inl ⟨?_, ho, hfl⟩))⟩
        simp [hts]
      | succ n =>
        simp only [stepTask, hts, List.getElem?_cons_succ, List.getElem?_nil]
        exact ⟨hv, hsp, Or.inr (Or.inl ⟨hts, ho, hfl⟩)⟩
    · cases i with
      | zero =>
        simp only [stepTask, hts, List.getElem?_cons_zero]
        rw [show f (⟨url, d, 0, none, Phase.toFetch⟩ : Task).url = .error m from hf]
        refine ⟨hv, hsp, Or.inr (Or.inr (Or.inr (Or.inl ⟨?_, ho, ?_⟩)))⟩
        · simp [hts]
        · simp [hfl]
      | succ n =>
        simp only [stepTask, hts, List.getElem?_cons_succ, List.getElem?_nil]
        exact ⟨hv, hsp, Or.inr (Or.inr (Or.inl ⟨hts, ho, hfl⟩))⟩
    · cases i with
      | zero =>
        simp only [stepTask, hts, List.getElem?_cons_zero]
        split
        · refine ⟨hv, hsp,
            Or.inr (Or.inr (Or.inr (Or.inr (Or.inl ⟨?_, ?_, hfl⟩))))⟩
          · simp [hts, ho]
          · simp [ho]
        · exact ⟨hv, hsp,
            Or.inr (Or.inr (Or.inr (Or.inl ⟨hts, ho, hfl⟩)))⟩
      | succ n =>
        simp only [stepTask, hts, List.getElem?_cons_succ, List.getElem?_nil]
        exact ⟨hv, hsp, Or.inr (Or.inr (Or.inr (Or.inl ⟨hts, ho, hfl⟩)))⟩
    · cases i with
      | zero =>
        simp only [stepTask, hts, List.getElem?_cons_zero]
        refine ⟨hv, hsp,
          Or.inr (Or.inr (Or.inr (Or.inr (Or.inr (Or.inl ⟨?_, ho, hfl⟩)))))⟩
        simp [hts]
      | succ n =>
        simp only [stepTask, hts, List.getElem?_cons_succ, List.getElem?_nil]
        exact ⟨hv, hsp,
          Or.inr (Or.inr (Or.inr (Or.inr (Or.inl ⟨hts, ho, hfl⟩))))⟩
    · cases i with
      | zero =>
        simp only [stepTask, hts, List.getElem?_cons_zero]
        refine ⟨hv, hsp,
          Or.inr (Or.inr (Or.inr (Or.inr (Or.inr (Or.inr ⟨?_, ho, hfl⟩)))))⟩
        simp [hts]
      | succ n =>
        simp only [stepTask, hts, List.getElem?_cons_succ, List.getElem?_nil]
        exact ⟨hv, hsp,
          Or.inr (Or.inr (Or.inr (Or.inr (Or.inr (Or.inl ⟨hts, ho, hfl⟩)))))⟩
    · simp only [stepTask, hts, List.getElem?_nil]
      exact ⟨hv, hsp,
        Or.inr (Or.inr (Or.inr (Or.inr (Or.inr (Or.inr ⟨hts, ho, hfl⟩)))))⟩

theorem stepTask_mu (f : Fetcher) (B : Nat)
    (hB : ∀ u b l, f u = .ok (b, l) → l.length ≤ B) (s : State) (i : Nat) :
    stepTask f s i = s ∨ mu B (stepTask f s i) + 1 ≤ mu B s := by
  cases hg : s.tasks[i]? with
  | none =>
    left
    simp only [stepTask, hg]
  | some t =>
    have hc := fun t' => mapSum_set_aux (taskPot B) s.tasks i t t' hg
    cases hph : t.phase with
    | spawned =>
      right
      simp only [stepTask, hg, hph]
      unfold mu
      split
      · next hd =>
        have := hc ({ t with phase := .finishing })
        have h0 : t.depth.toNat = 0 := by omega
        simp only [taskPot, phasePot, hph, h0, pot] at this
        dsimp only
        omega
      · next hd =>
        have := hc ({ t with phase := .checking })
        have h1 : t.depth.toNat = (t.depth - 1).toNat + 1 := by omega
        simp only [taskPot, phasePot, hph, h1, pot] at this
        dsimp only
        omega
    | checking =>
      right
      simp only [stepTask, hg, hph]
      unfold mu
      split
      · have := hc ({ t with phase := .sending .already (alreadyMsg t.url) [] })
        simp only [taskPot, phasePot, hph, List.length_nil, Nat.zero_mul] at this
        dsimp only
        omega
      · have := hc ({ t with phase := .toFetch })
        simp only [taskPot, phasePot, hph] at this
        dsimp only
        omega
    | toFetch =>
      right
      simp only [stepTask, hg, hph]
      unfold mu
      cases hfu : f t.url with
      | error e =>
        have := hc ({ t with phase := .sending .fetchError e [] })
        simp only [taskPot, phasePot, hph, List.length_nil, Nat.zero_mul] at this
        dsimp only
        omega
      | ok r =>
        obtain ⟨body, links⟩ := r
        have := hc ({ t with phase := .adding body links })
        simp only [taskPot, phasePot, hph] at this
        have hmono : links.length * (1 + pot B (t.depth - 1).toNat)
            ≤ B * (1 + pot B (t.depth - 1).toNat) :=
          Nat.mul_le_mul_right _ (hB t.url body links hfu)
        dsimp only
        omega
    | adding body links =>
      right
      simp only [stepTask, hg, hph]
      unfold mu
      have := hc ({ t with phase := .sending .found (foundMsg t.url body) links })
      simp only [taskPot, phasePot, hph] at this
      dsimp only
      omega
    | sending k m links =>
      simp only [stepTask, hg, hph]
      split
      · right
        unfold mu
        have := hc ({ t with phase := .spawning s.output.length links })
        simp only [taskPot, phasePot, hph] at this
        dsimp only
        omega
      · left
        rfl
    | spawning myIdx links =>
      right
      cases links with
      | nil =>
        simp only [stepTask, hg, hph]
        unfold mu
        have := hc ({ t with phase := .finishing })
        simp only [taskPot, phasePot, hph, List.length_nil, Nat.zero_mul] at this
        dsimp only
        omega
      | cons u rest =>
        simp only [stepTask, hg, hph]
        unfold mu
        have := hc ({ t with phase := .spawning myIdx rest })
        simp only [taskPot, phasePot, hph, List.length_cons, Nat.succ_mul] at this
        simp only [List.map_append, List.sum_append, List.map_cons, List.sum_cons,
          List.map_nil, List.sum_nil, taskPot, phasePot]
        omega
    | finishing =>
      right
      simp only [stepTask, hg, hph]
      unfold mu
      have he := mapSum_eraseIdx_aux (taskPot B) s.tasks i t hg
      simp only [taskPot, phasePot, hph] at he
      dsimp only
      omega

theorem stepMain_mu (B : Nat) (s : State) : mu B (stepMain s) = mu B s := by
  unfold mu
  rw [(stepMain_ghost s).1]

theorem effSteps_le (f : Fetcher) (B : Nat)
    (hB : ∀ u b l, f u = .ok (b, l) → l.length ≤ B) :
    ∀ (cs : List Nat) (s : State),
      effSteps f s cs + mu B (run f s cs) ≤ mu B s := by
  intro cs
  induction cs with
  | nil =>
    intro s
    simp [effSteps, run]
  | cons c cs ih =>
    intro s
    have ih2 := ih (exec f s c)
    have hrun : run f s (c :: cs) = run f (exec f s c) cs := rfl
    rw [hrun]
    show (if c ≠ 0 ∧ exec f s c ≠ s then 1 else 0) + effSteps f (exec f s c) cs
        + mu B (run f (exec f s c) cs) ≤ mu B s
    by_cases hc : c ≠ 0 ∧ exec f s c ≠ s
    · rw [if_pos hc]
      obtain ⟨hc0, hcneq⟩ := hc
      match c with
      | 0 => exact absurd rfl hc0
      | i + 1 =>
        rcases stepTask_mu f B hB s i with heq | hlt
        · exact absurd heq hcneq
        · have : mu B (exec f s (i + 1)) + 1 ≤ mu B s := hlt
          omega
    · rw [if_neg hc]
      by_cases h0 : c = 0
      · subst h0
        have : mu B (exec f s 0) = mu B s := stepMain_mu B s
        omega
      · have hee : exec f s c = s := by
          by_contra hne
          exact hc ⟨h0, hne⟩
        rw [hee] at ih2 ⊢
        omega



theorem InvFetchCount_init (url : String) (D : Int) : InvFetchCount (init url D) := by
  intro a
  simp [countFetches, countSpawns, init, preW]

theorem InvResultCount_init (url : String) (D : Int) : InvResultCount (init url D) := by
  simp [InvResultCount, init, pendW]

theorem InvParent_init (url : String) (D : Int) : InvParent (init url D) := by
  refine ⟨?_, ?_, ?_⟩
  · intro t ht i hi
    simp only [init, List.mem_singleton] at ht
    subst ht
    cases hi
  · intro t ht j links hjl
    simp only [init, List.mem_singleton] at ht
    subst ht
    cases hjl
  · intro j m hm i hi
    simp only [init, List.getElem?_nil] at hm
    cases hm

theorem InvDepth_init (url : String) (D : Int) : InvDepth D (init url D) := by
  refine ⟨?_, ?_⟩
  · intro t ht
    simp only [init, List.mem_singleton] at ht
    subst ht
    exact ⟨by simp, Or.inl rfl⟩
  · intro e he
    simp only [init, List.not_mem_nil] at he

theorem InvVisited_init (url : String) (D : Int) : InvVisited (init url D) := by
  refine ⟨?_, ?_, ?_, ?_⟩
  · intro a ha
    simp only [init, List.not_mem_nil] at ha
  · intro t ht b links hb
    simp only [init, List.mem_singleton] at ht
    subst ht
    cases hb
  · intro t ht m links hm
    simp only [init, List.mem_singleton] at ht
    subst ht
    cases hm
  · intro e he hk
    simp only [init, List.not_mem_nil] at he

theorem InvDepthZero_init (url : String) (d : Int) : InvDepthZero url d (init url d) :=
  ⟨rfl, rfl, rfl, rfl, rfl, Or.inr (Or.inl rfl)⟩

theorem InvErrPath_init (url m : String) (d : Int) : InvErrPath url m d (init url d) :=
  ⟨rfl, rfl, Or.inl ⟨rfl, rfl, rfl⟩⟩

/-! ### The claims settled by invariant -/

/-- Claim C1 (amended): for every address, the number of fetch-capability
invocations never exceeds the number of tasks created for that address —
each task fetches at most once.  (The original at-most-once-per-address
claim is refuted by `fetchedTwice`: a failed fetch never registers the
address, so a later task fetches it again, and two concurrent tasks can
both pass the membership check before either registers.) -/
theorem fetchAtMostOncePerTask (f : Fetcher) (url : String) (D : Int)
    (cs : List Nat) (a : String) :
    countFetches (run f (init url D) cs) a ≤ countSpawns (run f (init url D) cs) a := by
  have hinv := run_preserve f InvFetchCount (fun s c => InvFetchCount_step f s c)
    cs (init url D) (InvFetchCount_init url D)
  have h := hinv a
  omega

/-- Claim C9 (amended): every delivered line corresponds to one task
attempt — the number of lines delivered never exceeds the number of tasks
that ran with positive remaining depth — but an address may receive several
lines, one per task that processed it (see `fourLinesForSeed`). -/
theorem oneLinePerAttempt (f : Fetcher) (url : String) (D : Int) (cs : List Nat) :
    (run f (init url D) cs).output.length ≤ (run f (init url D) cs).attempts := by
  have hinv := run_preserve f InvResultCount (fun s c => InvResultCount_step f s c)
    cs (init url D) (InvResultCount_init url D)
  unfold InvResultCount at hinv
  omega

/-- Claim C5: a task's own result is delivered before any result of its
child tasks.  Every delivered line carries the output index of its parent
task's line (`pidx`, recorded when the parent spawned the child, which in
`Crawl` happens only after the parent's own send has completed), and that
index is always strictly smaller than the line's own position. -/
theorem parentLineFirst (f : Fetcher) (url : String) (D : Int) (cs : List Nat)
    (j : Nat) (m : Msg) (i : Nat)
    (hj : (run f (init url D) cs).output[j]? = some m) (hp : m.pidx = some i) :
    i < j := by
  have hinv := run_preserve f InvParent (fun s c => InvParent_step f s c)
    cs (init url D) (InvParent_init url D)
  exact hinv.2.2 j m hj i hp

/-- Claim C6: a crawl started at depth `D` never fetches at recursion
distance exceeding `D`: every task's distance from the seed plus its
remaining depth equals `D` (children inherit `depth - 1`), and every fetch
is performed at distance at most `D` (in fact at most `D - 1`, since a task
fetches only with positive remaining depth). -/
theorem fetchWithinDepth (f : Fetcher) (url : String) (D : Int) (cs : List Nat) :
    (∀ t ∈ (run f (init url D) cs).tasks, (t.dist : Int) + t.depth = D) ∧
    (∀ e ∈ (run f (init url D) cs).fetchLog, (e.2.1 : Int) ≤ D) := by
  have hinv := run_preserve f (InvDepth D) (fun s c => InvDepth_step f D s c)
    cs (init url D) (InvDepth_init url D)
  refine ⟨fun t ht => (hinv.1 t ht).1, fun e he => ?_⟩
  have := hinv.2 e he
  omega

/-- Claim C7: crawling with `depth ≤ 0` yields nothing: under every
schedule, no line is delivered, the visited register is never touched, the
fetch capability is never invoked, and no child task is ever spawned (the
spawn log keeps only the seed). -/
theorem depthZeroYieldsNothing (f : Fetcher) (url : String) (d : Int)
    (hd : d ≤ 0) (cs : List Nat) :
    (run f (init url d) cs).output = [] ∧ (run f (init url d) cs).visited = [] ∧
    (run f (init url d) cs).fetchLog = [] ∧
    (run f (init url d) cs).spawnLog = [url] ∧
    (run f (init url d) cs).attempts = 0 := by
  have hinv := run_preserve f (InvDepthZero url d)
    (fun s c => InvDepthZero_step f url d hd s c) cs (init url d)
    (InvDepthZero_init url d)
  exact ⟨hinv.1, hinv.2.1, hinv.2.2.1, hinv.2.2.2.1, hinv.2.2.2.2.1⟩

/-- Claim C8: crawling an address absent from the fetch capability's data
(at positive depth, nothing visited yet) follows the error path of `Crawl`:
the register stays empty, no children are ever spawned, and the output is
either still empty or exactly the one "not found" error line; once the task
is gone, the error line has certainly been delivered. -/
theorem absentAddressOneError (f : Fetcher) (url m : String) (d : Int)
    (hf : f url = .error m) (hd : 0 < d) (cs : List Nat) :
    (run f (init url d) cs).visited = [] ∧
    (run f (init url d) cs).spawnLog = [url] ∧
    (run f (init url d) cs).tasks.length ≤ 1 ∧
    ((run f (init url d) cs).output = [] ∨
      (run f (init url d) cs).output = [⟨m, url, .fetchError, none⟩]) ∧
    ((run f (init url d) cs).tasks = [] →
      (run f (init url d) cs).output = [⟨m, url, .fetchError, none⟩]) := by
  have hinv := run_preserve f (InvErrPath url m d)
    (fun s c => InvErrPath_step f url m d hf hd s c) cs (init url d)
    (InvErrPath_init url m d)
  obtain ⟨hv, hsp, hcase⟩ := hinv
  refine ⟨hv, hsp, ?_, ?_, ?_⟩
  · rcases hcase with ⟨hts, _, _⟩ | ⟨hts, _, _⟩ | ⟨hts, _, _⟩ | ⟨hts, _, _⟩ |
      ⟨hts, _, _⟩ | ⟨hts, _, _⟩ | ⟨hts, _, _⟩ <;> simp [hts]
  · rcases hcase with ⟨_, ho, _⟩ | ⟨_, ho, _⟩ | ⟨_, ho, _⟩ | ⟨_, ho, _⟩ |
      ⟨_, ho, _⟩ | ⟨_, ho, _⟩ | ⟨_, ho, _⟩
    · exact Or.inl ho
    · exact Or.inl ho
    · exact Or.inl ho
    · exact Or.inl ho
    · exact Or.inr ho
    · exact Or.inr ho
    · exact Or.inr ho
  · intro hts2
    rcases hcase with ⟨hts, ho, _⟩ | ⟨hts, ho, _⟩ | ⟨hts, ho, _⟩ | ⟨hts, ho, _⟩ |
      ⟨hts, ho, _⟩ | ⟨hts, ho, _⟩ | ⟨hts, ho, _⟩
    · rw [hts] at hts2; cases hts2
    · rw [hts] at hts2; cases hts2
    · rw [hts] at hts2; cases hts2
    · rw [hts] at hts2; cases hts2
    · rw [hts] at hts2; cases hts2
    · rw [hts] at hts2; cases hts2
    · exact ho

/-- Claim C10: the visited register is sound — an address is registered
only after a successful fetch of it (`sreg.Add` runs only on the success
path), and every delivered "already fetched" line is for an address whose
earlier fetch succeeded; consequently an address whose fetch failed is never
registered, and later tasks for it fetch again and deliver another error
line, as the reference crawl shows for `https://golang.org/cmd/`. -/
theorem visitedOnlySucceeded (f : Fetcher) (url : String) (D : Int) (cs : List Nat) :
    ((∀ a ∈ (run f (init url D) cs).visited,
      ∃ k : Nat, (a, k, true) ∈ (run f (init url D) cs).fetchLog) ∧
    (∀ e ∈ (run f (init url D) cs).output, e.kind = RKind.already →
      ∃ k : Nat, (e.addr, k, true) ∈ (run f (init url D) cs).fetchLog)) ∧
    ("https://golang.org/cmd/" ∉ (run fetcher (init seedURL 4) fullSched).visited ∧
    ((run fetcher (init seedURL 4) fullSched).fetchLog.filter
      (fun e => e.1 = "https://golang.org/cmd/")).length = 2 ∧
    ((run fetcher (init seedURL 4) fullSched).output.filter
      (fun e => e.addr = "https://golang.org/cmd/")).map Msg.kind =
      [RKind.fetchError, RKind.fetchError]) := by
  have hinv := run_preserve f InvVisited (fun s c => InvVisited_step f s c)
    cs (init url D) (InvVisited_init url D)
  exact ⟨⟨hinv.1, fun e he hk => hinv.1 e.addr (hinv.2.2.2 e he hk)⟩,
    by decide, by decide, by decide⟩

/-- Claim C3: every crawl terminates — over any fetcher whose pages carry
at most `B` links, any schedule performs at most `pot B D.toNat` effective
task micro-steps, a bound depending only on `B` and the starting depth `D`
(the measure `mu` strictly decreases at every effective task step) — and on
the cyclic graph `A → B → A` the crawl runs to completion delivering an
"already fetched A" line for the revisited node. -/
theorem crawlTerminates :
    (∀ (f : Fetcher) (B : Nat),
        (∀ u b l, f u = Except.ok (b, l) → l.length ≤ B) →
        ∀ (url : String) (D : Int) (cs : List Nat),
          effSteps f (init url D) cs ≤ pot B D.toNat) ∧
    ((run cyc (init "A" 4) cycSched).tasks = [] ∧
      (run cyc (init "A" 4) cycSched).consumer = CMode.done ∧
      alreadyMsg "A" ∈ (run cyc (init "A" 4) cycSched).output.map Msg.text) := by
  constructor
  · intro f B hB url D cs
    have h := effSteps_le f B hB cs (init url D)
    have hmu : mu B (init url D) = pot B D.toNat := by
      simp [mu, init, taskPot, phasePot]
    omega
  · exact ⟨by decide, by decide, by decide⟩



/-! ### Witnesses: the theorems above at concrete inputs -/

/-- The cyclic fixture has at most one link per page. -/
theorem cyc_link_bound : ∀ u b l, cyc u = Except.ok (b, l) → l.length ≤ 1 := by
  intro u b l h
  unfold cyc at h
  split_ifs at h <;> simp at h <;> obtain ⟨h1, h2⟩ := h <;> subst h2 <;> decide

theorem parentLineFirst_witness :
    (run fetcher (init seedURL 4) fullSched).output[1]? =
      some ⟨foundMsg "https://golang.org/pkg/" "Packages",
        "https://golang.org/pkg/", RKind.found, some 0⟩ ∧
    (0 : Nat) < 1 :=
  ⟨by decide, parentLineFirst fetcher seedURL 4 fullSched 1
    ⟨foundMsg "https://golang.org/pkg/" "Packages",
      "https://golang.org/pkg/", RKind.found, some 0⟩ 0
    (by decide) (by decide)⟩

theorem fetchWithinDepth_witness :
    ("https://golang.org/cmd/", 1, false) ∈
      (run fetcher (init seedURL 4) fullSched).fetchLog ∧
    ((("https://golang.org/cmd/", (1 : Nat), false) : String × Nat × Bool).2.1 : Int) ≤ 4 :=
  ⟨by decide, (fetchWithinDepth fetcher seedURL 4 fullSched).2 _ (by decide)⟩

theorem depthZeroYieldsNothing_witness :
    (0 : Int) ≤ 0 ∧ (run fetcher (init seedURL 0) [1, 1, 0]).output = [] :=
  ⟨by decide, (depthZeroYieldsNothing fetcher seedURL 0 (by decide) [1, 1, 0]).1⟩

theorem absentAddressOneError_witness :
    fetcher "https://golang.org/cmd/" =
      Except.error "not found: https://golang.org/cmd/" ∧
    (0 : Int) < 1 ∧
    (run fetcher (init "https://golang.org/cmd/" 1) [1, 0, 0, 1, 1, 1, 1, 1, 0, 0]).output =
      [⟨"not found: https://golang.org/cmd/", "https://golang.org/cmd/",
        RKind.fetchError, none⟩] :=
  ⟨rfl, by decide,
    (absentAddressOneError fetcher "https://golang.org/cmd/"
      "not found: https://golang.org/cmd/" 1 rfl (by decide)
      [1, 0, 0, 1, 1, 1, 1, 1, 0, 0]).2.2.2.2 (by decide)⟩

theorem visitedOnlySucceeded_witness :
    seedURL ∈ (run fetcher (init seedURL 4) fullSched).visited ∧
    ∃ k : Nat, (seedURL, k, true) ∈ (run fetcher (init seedURL 4) fullSched).fetchLog :=
  ⟨by decide, (visitedOnlySucceeded fetcher seedURL 4 fullSched).1.1 seedURL (by decide)⟩

theorem crawlTerminates_witness :
    (∀ u b l, cyc u = Except.ok (b, l) → l.length ≤ 1) ∧
    effSteps cyc (init "A" 4) cycSched ≤ pot 1 (4 : Int).toNat :=
  ⟨cyc_link_bound, crawlTerminates.1 cyc 1 cyc_link_bound "A" 4 cycSched⟩

end WebCrawler
